import Mathlib

/-!
# Verification of the moonlighter night-schedule optimizer

Shallow embedding of `src/moonlighter_optimizer.py`
(`MoonlighterScheduleOptimizer`).  Nights are calendar dates generated day
by day from an inclusive range, so we model a night as its day ordinal
(`Nat`); equality and calendar order of date strings coincide with equality
and order of ordinals.  Faculty ids stay opaque strings as in the source.
Python dictionaries keyed by faculty id / night are modelled as total
functions updated with `Function.update`, and the Python `defaultdict`
default (empty list, count 0) is the functions' initial value everywhere.
Exceptions (`ValueError`, `ZeroDivisionError`) are modelled with
`Except` / `Option`.
-/

/-- One faculty record, as loaded by `load_faculty_requests`.
`desired_nights` carries the value after `faculty.get('desired_nights', 0)`;
`priority` is the raw optional field, read as `faculty.get('priority', 2)`
at the use sites; `requested_dates` is the raw date list, used with set
semantics (membership) as the code wraps it in `set(...)`. -/
structure Faculty where
  id : String
  name : String
  desired_nights : Nat
  requested_dates : List Nat
  priority : Option Nat

/-- `_generate_nights`: every date from `s` to `e` inclusive, ascending;
empty when `e < s`. -/
def generateNights (s e : Nat) : List Nat :=
  (List.range (e + 1 - s)).map (fun d => d + s)

/-- The reverse index `self.requests` built by `load_faculty_requests`:
for a night in the universe, the ids of the faculty records whose requested
set contains it, in faculty-load order; empty for nights outside the
universe (the `if night in self.nights` filter). -/
def requestsIdx (nights : List Nat) (fac : List Faculty) : Nat → List String :=
  fun n =>
    if n ∈ nights then (fac.filter (fun f => n ∈ f.requested_dates)).map Faculty.id
    else []

/-- Dictionary lookup `self.faculty[fid]` (first record with that id; under
the unique-id input contract this is the dictionary's record). -/
def facFind (fac : List Faculty) (fid : String) : Option Faculty :=
  fac.find? (fun f => f.id = fid)

/-- `self.desired_counts[fid]`. -/
def desiredOf (fac : List Faculty) (fid : String) : Nat :=
  ((facFind fac fid).map Faculty.desired_nights).getD 0

/-- `self.faculty[fid].get('priority', 2)`. -/
def prioOf (fac : List Faculty) (fid : String) : Nat :=
  ((facFind fac fid).bind Faculty.priority).getD 2

/-- The requested-dates set of a faculty id (membership view of
`self.faculty_requests[fid]`). -/
def reqDatesOf (fac : List Faculty) (fid : String) : List Nat :=
  ((facFind fac fid).map Faculty.requested_dates).getD []

/-- `priority_bonus = (4 - priority) * 10` (`_optimize_balanced`). -/
def priorityBonus (p : Nat) : Int :=
  (4 - (p : Int)) * 10

/-- The balanced strategy's need score:
`score = deficit * 10 + priority_bonus` with `deficit = desired - assigned`. -/
def needScore (desired assigned p : Nat) : Int :=
  ((desired : Int) - (assigned : Int)) * 10 + priorityBonus p

/-- Stable insertion (used to model Python's stable `sorted`): insert `a`
before the first element `b` with `le a b`. -/
def insertByLe (le : α → α → Bool) (a : α) : List α → List α
  | [] => [a]
  | b :: bs => if le a b then a :: b :: bs else b :: insertByLe le a bs

/-- Stable sort by the boolean comparison `le` (insertion sort from the
right).  With `le a b = (key a ≤ key b)` this computes exactly Python's
stable ascending `sorted(key=...)`; with `le a b = (key b ≤ key a)` the
stable descending `sorted(key=..., reverse=True)`. -/
def sortByLe (le : α → α → Bool) : List α → List α
  | [] => []
  | a :: as => insertByLe le a (sortByLe le as)

/-- `sorted(self.nights, key=lambda n: len(self.requests[n]))`: the night
processing order shared by the balanced and coverage strategies (fewest
requesters first; Python's sort is stable, so ties keep the calendar order
of `self.nights`). -/
def nightsByDifficulty (req : Nat → List String) (nights : List Nat) : List Nat :=
  sortByLe (fun a b => decide ((req a).length ≤ (req b).length)) nights

/-- Run-scoped assignment state: `self.assignments` (`asg`),
`self.faculty_assignments` (`fasg`), the local `assigned_counts` (`counts`),
and `trace`, an observation recording the chronological sequence of nights
at which assignments were made (not present in the source; it only records
event order and influences nothing). -/
structure AsgState where
  asg : Nat → List String
  fasg : String → List Nat
  counts : String → Nat
  trace : List Nat

/-- The reset state at the start of each strategy. -/
def initState : AsgState :=
  { asg := fun _ => [], fasg := fun _ => [], counts := fun _ => 0, trace := [] }

/-- One assignment: append to the night's list and the faculty's list and
bump the count (the three mutations done together by every strategy). -/
def assignOne (night : Nat) (fid : String) (s : AsgState) : AsgState :=
  { asg := Function.update s.asg night (s.asg night ++ [fid])
    fasg := Function.update s.fasg fid (s.fasg fid ++ [night])
    counts := Function.update s.counts fid (s.counts fid + 1)
    trace := s.trace ++ [night] }

/-- The balanced strategy's candidate selection for one night: score each
available faculty with the live counts, sort stably by score descending
(`scored_faculty.sort(key=lambda x: x[1], reverse=True)`; the tuples cache
`score(fid)`, so sorting tuples by second component is sorting ids by the
key), and take the first `cap`. -/
def balChoose (cap : Nat) (fac : List Faculty) (req : Nat → List String)
    (s : AsgState) (night : Nat) : List String :=
  (sortByLe
    (fun f g =>
      decide (needScore (desiredOf fac g) (s.counts g) (prioOf fac g) ≤
        needScore (desiredOf fac f) (s.counts f) (prioOf fac f)))
    (req night)).take cap

/-- One night of `_optimize_balanced`: skip if nobody requested it, else
assign the chosen candidates in order. -/
def balancedStep (cap : Nat) (fac : List Faculty) (req : Nat → List String)
    (s : AsgState) (night : Nat) : AsgState :=
  if req night = [] then s
  else (balChoose cap fac req s night).foldl (fun t f => assignOne night f t) s

/-- `_optimize_balanced` up to `_generate_results`: fold the per-night step
over the difficulty-sorted nights starting from the reset state. -/
def balancedRun (nights : List Nat) (cap : Nat) (fac : List Faculty) : AsgState :=
  (nightsByDifficulty (requestsIdx nights fac) nights).foldl
    (balancedStep cap fac (requestsIdx nights fac)) initState

/-- The coverage strategy's candidate selection for one night:
`sorted(available, key=lambda fid: assigned_counts[fid] - desired_counts[fid])`
(stable ascending), take the first `cap`. -/
def covChoose (cap : Nat) (fac : List Faculty) (req : Nat → List String)
    (s : AsgState) (night : Nat) : List String :=
  (sortByLe
    (fun f g =>
      decide (((s.counts f : Int) - (desiredOf fac f : Int)) ≤
        ((s.counts g : Int) - (desiredOf fac g : Int))))
    (req night)).take cap

/-- One night of `_optimize_coverage_first`. -/
def coverageStep (cap : Nat) (fac : List Faculty) (req : Nat → List String)
    (s : AsgState) (night : Nat) : AsgState :=
  if req night = [] then s
  else (covChoose cap fac req s night).foldl (fun t f => assignOne night f t) s

/-- `_optimize_coverage_first` up to `_generate_results`. -/
def coverageRun (nights : List Nat) (cap : Nat) (fac : List Faculty) : AsgState :=
  (nightsByDifficulty (requestsIdx nights fac) nights).foldl
    (coverageStep cap fac (requestsIdx nights fac)) initState

/-- Python's `min(xs, key=k)` over `best :: rest`: scan left to right
keeping the current best, replacing only on a strictly smaller key, so the
first minimum wins. -/
def pyMinAux (key : Nat → Nat) (best : Nat) : List Nat → Nat
  | [] => best
  | y :: ys => pyMinAux key (if key y < key best then y else best) ys

/-- One faculty's claim attempt in a satisfaction round: filter their
stored requested nights to those not yet full, and if any remain assign the
least-contested one (`min(..., key=lambda n: len(self.requests[n]))`).
`freq` is the run's `self.faculty_requests` view: each id's requested-date
set in the (unspecified) Python set iteration order. -/
def satClaimStep (cap : Nat) (req : Nat → List String) (freq : String → List Nat)
    (s : AsgState) (fid : String) : AsgState :=
  match (freq fid).filter (fun n => decide ((s.asg n).length < cap)) with
  | [] => s
  | n :: ns => assignOne (pyMinAux (fun m => (req m).length) n ns) fid s

/-- The round loop of `_optimize_satisfaction`: at most `fuel` rounds
remain; stop early when nobody is still under quota, else shuffle the
active faculty (`shuffle` receives the round number, modelling the seedable
random source) and let each claim one night. -/
def satRounds (cap : Nat) (req : Nat → List String) (freq : String → List Nat)
    (fac : List Faculty) (shuffle : Nat → List String → List String) :
    Nat → Nat → AsgState → AsgState
  | 0, _, s => s
  | fuel + 1, rnd, s =>
    let active := (fac.map Faculty.id).filter
      (fun f => decide (s.counts f < desiredOf fac f))
    if active.isEmpty then s
    else
      satRounds cap req freq fac shuffle fuel (rnd + 1)
        ((shuffle rnd active).foldl (satClaimStep cap req freq) s)

/-- `_optimize_satisfaction` up to `_generate_results`:
`max_rounds = max(desired_counts.values()) if desired_counts else 0` rounds
over the reset state. -/
def satRun (nights : List Nat) (cap : Nat) (fac : List Faculty)
    (freq : String → List Nat) (shuffle : Nat → List String → List String) :
    AsgState :=
  satRounds cap (requestsIdx nights fac) freq fac shuffle
    ((fac.map Faculty.desired_nights).foldr max 0) 0 initState

/-- One row of `faculty_stats` in `_generate_results`. -/
structure FacultyStat where
  id : String
  name : String
  requested : Nat
  desired : Nat
  assigned : Nat
  difference : Int
  fulfillment : Rat
  nights : List Nat

/-- The `metrics` dictionary of `_generate_results`. -/
structure Metrics where
  total_nights : Nat
  fully_covered : Nat
  partially_covered : Nat
  uncovered : Int
  coverage_rate : Rat
  total_shifts_needed : Nat
  total_shifts_filled : Nat
  full_gaps : List Nat
  partial_gaps : List Nat
  faculty_stats : List FacultyStat
  overall_satisfaction : Rat
  total_desired : Nat
  total_assigned : Nat

/-- The dictionary returned by `_generate_results`. -/
structure RunResult where
  schedule : Nat → List String
  metrics : Metrics

/-- `fulfillment = (assigned / desired * 100) if desired > 0 else 0`. -/
def fulfillmentOf (assigned desired : Nat) : Rat :=
  if 0 < desired then (assigned : Rat) / (desired : Rat) * 100 else 0

/-- One faculty's statistics row. -/
def mkStat (s : AsgState) (f : Faculty) : FacultyStat :=
  { id := f.id
    name := f.name
    requested := f.requested_dates.dedup.length
    desired := f.desired_nights
    assigned := (s.fasg f.id).length
    difference := ((s.fasg f.id).length : Int) - (f.desired_nights : Int)
    fulfillment := fulfillmentOf (s.fasg f.id).length f.desired_nights
    nights := sortByLe (fun a b => decide (a ≤ b)) (s.fasg f.id) }

/-- `_generate_results`.  `coverage_rate = covered_nights / total_nights * 100`
raises `ZeroDivisionError` when the night universe is empty, modelled by
`none`; every other division in the function is guarded by the code. -/
def generateResults (nights : List Nat) (cap : Nat) (fac : List Faculty)
    (s : AsgState) : Option RunResult :=
  if nights.length = 0 then none
  else
    let covered := nights.countP (fun n => decide (cap ≤ (s.asg n).length))
    let partially := nights.countP
      (fun n => decide (0 < (s.asg n).length ∧ (s.asg n).length < cap))
    let totalDesired := (fac.map Faculty.desired_nights).sum
    let totalAssigned := (fac.map (fun f => (s.fasg f.id).length)).sum
    some
      { schedule := s.asg
        metrics :=
          { total_nights := nights.length
            fully_covered := covered
            partially_covered := partially
            uncovered := (nights.length : Int) - (covered : Int) - (partially : Int)
            coverage_rate := (covered : Rat) / (nights.length : Rat) * 100
            total_shifts_needed := nights.length * cap
            total_shifts_filled := (nights.map (fun n => (s.asg n).length)).sum
            full_gaps := nights.filter (fun n => decide ((s.asg n).length = 0))
            partial_gaps := nights.filter
              (fun n => decide (0 < (s.asg n).length ∧ (s.asg n).length < cap))
            faculty_stats := fac.map (mkStat s)
            overall_satisfaction :=
              if 0 < totalDesired then (totalAssigned : Rat) / (totalDesired : Rat) * 100
              else 0
            total_desired := totalDesired
            total_assigned := totalAssigned } }

/-- Balanced pipeline: run, then build results. -/
def optimizeBalanced (nights : List Nat) (cap : Nat) (fac : List Faculty) :
    Option RunResult :=
  generateResults nights cap fac (balancedRun nights cap fac)

/-- Coverage pipeline. -/
def optimizeCoverage (nights : List Nat) (cap : Nat) (fac : List Faculty) :
    Option RunResult :=
  generateResults nights cap fac (coverageRun nights cap fac)

/-- Satisfaction pipeline. -/
def optimizeSatisfaction (nights : List Nat) (cap : Nat) (fac : List Faculty)
    (freq : String → List Nat) (shuffle : Nat → List String → List String) :
    Option RunResult :=
  generateResults nights cap fac (satRun nights cap fac freq shuffle)

/-- `optimize_schedule`: dispatch on the strategy name; an unknown name
raises `ValueError(f"Unknown strategy: {strategy}")` before any strategy
(and hence any reset or mutation of assignment state) runs. -/
def optimize_schedule (nights : List Nat) (cap : Nat) (fac : List Faculty)
    (freq : String → List Nat) (shuffle : Nat → List String → List String)
    (strategy : String) : Except String (Option RunResult) :=
  if strategy = "balanced" then Except.ok (optimizeBalanced nights cap fac)
  else if strategy = "coverage" then Except.ok (optimizeCoverage nights cap fac)
  else if strategy = "satisfaction" then
    Except.ok (optimizeSatisfaction nights cap fac freq shuffle)
  else Except.error ("Unknown strategy: " ++ strategy)

/-- A night-indexed assignment map is well formed for headcount `cap` and
request index `req`: per night no duplicate ids, at most `cap` ids, and
only ids that requested the night. -/
def GoodAsg (cap : Nat) (req : Nat → List String) (s : AsgState) : Prop :=
  ∀ n, (s.asg n).Nodup ∧ (s.asg n).length ≤ cap ∧ ∀ f ∈ s.asg n, f ∈ req n

/-- The two assigned-count views kept by the code agree: the local
`assigned_counts` equals the length of `self.faculty_assignments`. -/
def Synced (s : AsgState) : Prop :=
  ∀ g, s.counts g = (s.fasg g).length

/-- The ordering a stable ascending sort by `key` must produce on a
strictly increasing input: keys ascend, and equal keys keep the input's
(calendar) order. -/
def KeyOrd (key : Nat → Nat) (a b : Nat) : Prop :=
  key a ≤ key b ∧ (key a = key b → a < b)

/-- Identity shuffle: a legal (trivially seeded) permutation choice for the
satisfaction strategy's randomized tie-break. -/
def idShuffle : Nat → List String → List String := fun _ l => l

/-- C1 counterexample input: one requester with desired-count 0 who
requested the only night. -/
def facC1 : List Faculty := [⟨"a", "A", 0, [3], none⟩]

/-- C2 counterexample input: one requester with desired-count 2 whose only
requested night has headcount 2. -/
def facC2 : List Faculty := [⟨"a", "A", 2, [0], none⟩]

/-- `self.faculty_requests` for `facC2`. -/
def freqC2 : String → List Nat := fun g => if g = "a" then [0] else []

/-- C3 counterexample input: a requester with desired-count 0 and no
requests (the spec's own scenario). -/
def facC3 : List Faculty := [⟨"a", "A", 0, [], none⟩]

/-- C5 failing input: the requester's only requested date (5) lies outside
the night universe `generateNights 0 1 = [0, 1]`. -/
def facC5 : List Faculty := [⟨"a", "A", 1, [5], none⟩]

/-- `self.faculty_requests` for `facC5`. -/
def freqC5 : String → List Nat := fun g => if g = "a" then [5] else []

/-- C6 counterexample input: one night with headcount 2 and a single
requester, so exactly one of the two slots gets filled. -/
def facC6 : List Faculty := [⟨"a", "A", 1, [0], none⟩]

/-- C9 counterexample input: requester f wants only the contested night 1;
requester g also holds the uncontested night 2. -/
def facC9 : List Faculty :=
  [⟨"f", "F", 1, [1], none⟩, ⟨"g", "G", 1, [1, 2], none⟩]

/-- `self.faculty_requests` for `facC9`. -/
def freqC9 : String → List Nat :=
  fun x => if x = "f" then [1] else if x = "g" then [1, 2] else []

/-! ## Basic lemmas about the stable sort and the assignment step -/

lemma insertByLe_perm (le : α → α → Bool) (a : α) :
    ∀ m : List α, (insertByLe le a m).Perm (a :: m) := by
  intro m
  induction m with
  | nil => simp [insertByLe]
  | cons b bs ih =>
      simp only [insertByLe]
      by_cases h : le a b
      · simp [h]
      · simp only [h, Bool.false_eq_true, if_false]
        exact (ih.cons b).trans (List.Perm.swap a b bs)

lemma sortByLe_perm (le : α → α → Bool) :
    ∀ l : List α, (sortByLe le l).Perm l := by
  intro l
  induction l with
  | nil => simp [sortByLe]
  | cons a as ih =>
      simp only [sortByLe]
      exact (insertByLe_perm le a (sortByLe le as)).trans (ih.cons a)

lemma sortByLe_nodup (le : α → α → Bool) (l : List α) (h : l.Nodup) :
    (sortByLe le l).Nodup :=
  (sortByLe_perm le l).symm.nodup h

lemma mem_sortByLe (le : α → α → Bool) (l : List α) (x : α) :
    x ∈ sortByLe le l ↔ x ∈ l :=
  (sortByLe_perm le l).mem_iff

lemma assignOne_asg (night : Nat) (fid : String) (s : AsgState) (n : Nat) :
    (assignOne night fid s).asg n =
      if n = night then s.asg night ++ [fid] else s.asg n := by
  simp [assignOne, Function.update_apply]

lemma assignOne_counts (night : Nat) (fid : String) (s : AsgState) (g : String) :
    (assignOne night fid s).counts g =
      if g = fid then s.counts fid + 1 else s.counts g := by
  simp [assignOne, Function.update_apply]

lemma assignOne_fasg (night : Nat) (fid : String) (s : AsgState) (g : String) :
    (assignOne night fid s).fasg g =
      if g = fid then s.fasg fid ++ [night] else s.fasg g := by
  simp [assignOne, Function.update_apply]

lemma synced_assignOne (night : Nat) (fid : String) (s : AsgState)
    (h : Synced s) : Synced (assignOne night fid s) := by
  intro g
  rw [assignOne_counts, assignOne_fasg]
  by_cases hg : g = fid
  · simp [hg, h fid]
  · simp [hg, h g]

lemma foldl_preserve {α : Type} {P : AsgState → Prop}
    (step : AsgState → α → AsgState)
    (hstep : ∀ s x, P s → P (step s x)) :
    ∀ (l : List α) (s : AsgState), P s → P (l.foldl step s) := by
  intro l
  induction l with
  | nil => intro s hs; simpa using hs
  | cons x xs ih => intro s hs; exact ih (step s x) (hstep s x hs)

lemma foldl_assign_asg (night : Nat) (chosen : List String) (s : AsgState)
    (n : Nat) :
    ((chosen.foldl (fun t f => assignOne night f t) s).asg n) =
      if n = night then s.asg night ++ chosen else s.asg n := by
  induction chosen generalizing s with
  | nil => by_cases h : n = night <;> simp [h]
  | cons f fs ih =>
      simp only [List.foldl_cons, ih]
      by_cases h : n = night <;>
        simp [h, assignOne_asg]

lemma foldl_assign_counts (night : Nat) (chosen : List String) (s : AsgState)
    (g : String) :
    ((chosen.foldl (fun t f => assignOne night f t) s).counts g) =
      s.counts g + chosen.count g := by
  induction chosen generalizing s with
  | nil => simp
  | cons f fs ih =>
      simp only [List.foldl_cons, ih]
      by_cases h : g = f
      · subst h
        simp [assignOne_counts, List.count_cons, Nat.add_assoc, Nat.add_comm 1]
      · simp [assignOne_counts, h, List.count_cons, Ne.symm h]

lemma synced_foldl_assign (night : Nat) (chosen : List String) (s : AsgState)
    (h : Synced s) :
    Synced (chosen.foldl (fun t f => assignOne night f t) s) :=
  foldl_preserve _ (fun t f ht => synced_assignOne night f t ht) chosen s h

/-! ## The shared per-night loop of the balanced and coverage strategies -/

lemma balancedStep_eq (cap : Nat) (fac : List Faculty) (req : Nat → List String)
    (s : AsgState) (night : Nat) :
    balancedStep cap fac req s night =
      (balChoose cap fac req s night).foldl (fun t f => assignOne night f t) s := by
  by_cases h : req night = []
  · simp [balancedStep, h, balChoose, sortByLe]
  · simp [balancedStep, h]

lemma coverageStep_eq (cap : Nat) (fac : List Faculty) (req : Nat → List String)
    (s : AsgState) (night : Nat) :
    coverageStep cap fac req s night =
      (covChoose cap fac req s night).foldl (fun t f => assignOne night f t) s := by
  by_cases h : req night = []
  · simp [coverageStep, h, covChoose, sortByLe]
  · simp [coverageStep, h]

lemma take_sortByLe_nodup (le : α → α → Bool) (l : List α) (cap : Nat)
    (h : l.Nodup) : ((sortByLe le l).take cap).Nodup :=
  (sortByLe_nodup le l h).sublist (List.take_sublist cap (sortByLe le l))

lemma take_sortByLe_length (le : α → α → Bool) (l : List α) (cap : Nat) :
    ((sortByLe le l).take cap).length ≤ cap :=
  (List.length_take cap (sortByLe le l)) ▸ Nat.min_le_left _ _

lemma take_sortByLe_mem (le : α → α → Bool) (l : List α) (cap : Nat) (x : α)
    (h : x ∈ (sortByLe le l).take cap) : x ∈ l :=
  (mem_sortByLe le l x).mp ((List.take_sublist cap (sortByLe le l)).mem h)

lemma nightFold_good (cap : Nat) (req : Nat → List String)
    (choose : AsgState → Nat → List String)
    (hnd : ∀ s n, (choose s n).Nodup)
    (hlen : ∀ s n, (choose s n).length ≤ cap)
    (hmem : ∀ s n f, f ∈ choose s n → f ∈ req n) :
    ∀ (L : List Nat), L.Nodup → ∀ (s : AsgState),
      (∀ n, n ∈ L → s.asg n = []) → GoodAsg cap req s →
      GoodAsg cap req
        (L.foldl (fun t night =>
          (choose t night).foldl (fun u f => assignOne night f u) t) s) := by
  intro L
  induction L with
  | nil => intro _ s _ hs; simpa using hs
  | cons night L' ih =>
      intro hnodup s hfresh hs
      simp only [List.foldl_cons]
      apply ih hnodup.of_cons
      · intro n hn
        rw [foldl_assign_asg]
        have hne : n ≠ night := by
          intro he
          exact (List.rel_of_pairwise_cons hnodup hn) he.symm
        simp [hne]
        exact hfresh n (List.mem_cons_of_mem night hn)
      · intro n
        rw [foldl_assign_asg]
        by_cases h : n = night
        · subst h
          rw [hfresh n (List.mem_cons_self n L')]
          simpa using ⟨hnd s n, hlen s n, fun f hf => hmem s n f hf⟩
        · simp only [h, if_false]
          exact hs n

lemma requestsIdx_nodup (nights : List Nat) (fac : List Faculty)
    (hids : (fac.map Faculty.id).Nodup) (n : Nat) :
    (requestsIdx nights fac n).Nodup := by
  unfold requestsIdx
  by_cases h : n ∈ nights
  · simp only [h, if_true]
    exact hids.sublist (List.Sublist.map Faculty.id (List.filter_sublist fac))
  · simp [h]

lemma balancedRun_good (nights : List Nat) (cap : Nat) (fac : List Faculty)
    (hnights : nights.Nodup) (hids : (fac.map Faculty.id).Nodup) :
    GoodAsg cap (requestsIdx nights fac) (balancedRun nights cap fac) := by
  unfold balancedRun
  have he : balancedStep cap fac (requestsIdx nights fac) =
      fun t night => (balChoose cap fac (requestsIdx nights fac) t night).foldl
        (fun u f => assignOne night f u) t :=
    funext fun t => funext fun night => balancedStep_eq cap fac _ t night
  rw [he]
  apply nightFold_good cap (requestsIdx nights fac) _
    (fun s n => take_sortByLe_nodup _ _ cap (requestsIdx_nodup nights fac hids n))
    (fun s n => take_sortByLe_length _ _ cap)
    (fun s n f hf => take_sortByLe_mem _ _ cap f hf)
    (nightsByDifficulty (requestsIdx nights fac) nights)
    (sortByLe_nodup _ nights hnights)
    initState (fun n _ => rfl)
  intro n
  exact ⟨List.nodup_nil, Nat.zero_le cap, fun f hf => absurd hf (List.not_mem_nil f)⟩

lemma coverageRun_good (nights : List Nat) (cap : Nat) (fac : List Faculty)
    (hnights : nights.Nodup) (hids : (fac.map Faculty.id).Nodup) :
    GoodAsg cap (requestsIdx nights fac) (coverageRun nights cap fac) := by
  unfold coverageRun
  have he : coverageStep cap fac (requestsIdx nights fac) =
      fun t night => (covChoose cap fac (requestsIdx nights fac) t night).foldl
        (fun u f => assignOne night f u) t :=
    funext fun t => funext fun night => coverageStep_eq cap fac _ t night
  rw [he]
  apply nightFold_good cap (requestsIdx nights fac) _
    (fun s n => take_sortByLe_nodup _ _ cap (requestsIdx_nodup nights fac hids n))
    (fun s n => take_sortByLe_length _ _ cap)
    (fun s n f hf => take_sortByLe_mem _ _ cap f hf)
    (nightsByDifficulty (requestsIdx nights fac) nights)
    (sortByLe_nodup _ nights hnights)
    initState (fun n _ => rfl)
  intro n
  exact ⟨List.nodup_nil, Nat.zero_le cap, fun f hf => absurd hf (List.not_mem_nil f)⟩

/-! ## From the reverse request index back to a requester's request set -/

lemma facFind_eq_of_mem (fac : List Faculty) (r : Faculty)
    (hids : (fac.map Faculty.id).Nodup) (hr : r ∈ fac) :
    facFind fac r.id = some r := by
  induction fac with
  | nil => exact absurd hr (List.not_mem_nil r)
  | cons a as ih =>
      simp only [List.map_cons, List.nodup_cons] at hids
      rcases List.mem_cons.mp hr with he | hm
      · subst he
        simp [facFind, List.find?]
      · by_cases hid : a.id = r.id
        · exact absurd (hid ▸ List.mem_map_of_mem Faculty.id hm) hids.1
        · simp only [facFind, List.find?, hid, decide_False]
          exact ih hids.2 hm

lemma mem_requestsIdx (nights : List Nat) (fac : List Faculty) (n : Nat)
    (f : String) (hids : (fac.map Faculty.id).Nodup)
    (hf : f ∈ requestsIdx nights fac n) : n ∈ reqDatesOf fac f := by
  unfold requestsIdx at hf
  by_cases h : n ∈ nights
  · simp only [h, if_true, List.mem_map] at hf
    obtain ⟨r, hr, hrid⟩ := hf
    have hmem := (List.mem_filter.mp hr).1
    have hdate : n ∈ r.requested_dates := by
      have := (List.mem_filter.mp hr).2
      simpa using this
    rw [← hrid]
    rw [reqDatesOf, facFind_eq_of_mem fac r hids hmem]
    simpa using hdate
  · simp [h] at hf

/-! ## Satisfaction-strategy invariants -/

lemma pyMinAux_mem (key : Nat → Nat) :
    ∀ (l : List Nat) (best : Nat), pyMinAux key best l ∈ best :: l := by
  intro l
  induction l with
  | nil => intro best; simp [pyMinAux]
  | cons y ys ih =>
      intro best
      simp only [pyMinAux]
      by_cases h : key y < key best
      · simp only [h, if_true]
        rcases List.mem_cons.mp (ih y) with he | hm
        · simp [he]
        · exact List.mem_cons_of_mem best (List.mem_cons_of_mem y hm)
      · simp only [h, if_false]
        rcases List.mem_cons.mp (ih best) with he | hm
        · simp [he]
        · exact List.mem_cons_of_mem best (List.mem_cons_of_mem y hm)

lemma satClaimStep_cases (cap : Nat) (req : Nat → List String)
    (freq : String → List Nat) (s : AsgState) (fid : String) :
    satClaimStep cap req freq s fid = s ∨
      ∃ best, best ∈ freq fid ∧ (s.asg best).length < cap ∧
        satClaimStep cap req freq s fid = assignOne best fid s := by
  unfold satClaimStep
  rcases hm : (freq fid).filter (fun n => decide ((s.asg n).length < cap)) with _ | ⟨n, ns⟩
  · exact Or.inl rfl
  · right
    refine ⟨pyMinAux (fun m => (req m).length) n ns, ?_, ?_, rfl⟩
    · have hmem : pyMinAux (fun m => (req m).length) n ns ∈
          (freq fid).filter (fun n => decide ((s.asg n).length < cap)) := by
        rw [hm]; exact pyMinAux_mem _ ns n
      exact (List.mem_filter.mp hmem).1
    · have hmem : pyMinAux (fun m => (req m).length) n ns ∈
          (freq fid).filter (fun n => decide ((s.asg n).length < cap)) := by
        rw [hm]; exact pyMinAux_mem _ ns n
      have := (List.mem_filter.mp hmem).2
      simpa using this

lemma satClaimStep_capBound (cap : Nat) (req : Nat → List String)
    (freq : String → List Nat) (s : AsgState) (fid : String)
    (h : ∀ n, (s.asg n).length ≤ cap) :
    ∀ n, ((satClaimStep cap req freq s fid).asg n).length ≤ cap := by
  rcases satClaimStep_cases cap req freq s fid with he | ⟨best, _, hlt, he⟩
  · rw [he]; exact h
  · rw [he]
    intro n
    rw [assignOne_asg]
    by_cases hn : n = best
    · simpa [hn] using hlt
    · simp only [hn, if_false]; exact h n

lemma satClaimStep_validity (cap : Nat) (req : Nat → List String)
    (freq : String → List Nat) (fac : List Faculty) (s : AsgState) (fid : String)
    (hfreq : ∀ g n, n ∈ freq g → n ∈ reqDatesOf fac g)
    (h : ∀ n f, f ∈ s.asg n → n ∈ reqDatesOf fac f) :
    ∀ n f, f ∈ (satClaimStep cap req freq s fid).asg n → n ∈ reqDatesOf fac f := by
  rcases satClaimStep_cases cap req freq s fid with he | ⟨best, hb, _, he⟩
  · rw [he]; exact h
  · rw [he]
    intro n f hf
    rw [assignOne_asg] at hf
    by_cases hn : n = best
    · subst hn
      have hf2 : f ∈ s.asg n ++ [fid] := by simpa using hf
      rcases List.mem_append.mp hf2 with hf3 | hf3
      · exact h n f hf3
      · rw [List.mem_singleton] at hf3
        subst hf3
        exact hfreq f n hb
    · simp only [hn, if_false] at hf
      exact h n f hf

lemma satClaimStep_counts_other (cap : Nat) (req : Nat → List String)
    (freq : String → List Nat) (s : AsgState) (fid g : String) (hg : g ≠ fid) :
    (satClaimStep cap req freq s fid).counts g = s.counts g := by
  rcases satClaimStep_cases cap req freq s fid with he | ⟨best, _, _, he⟩
  · rw [he]
  · rw [he, assignOne_counts]; simp [hg]

lemma satClaimStep_counts_self (cap : Nat) (req : Nat → List String)
    (freq : String → List Nat) (s : AsgState) (fid : String) :
    (satClaimStep cap req freq s fid).counts fid ≤ s.counts fid + 1 := by
  rcases satClaimStep_cases cap req freq s fid with he | ⟨best, _, _, he⟩
  · rw [he]; exact Nat.le_succ _
  · rw [he, assignOne_counts]; simp

lemma satFold_counts_le (cap : Nat) (req : Nat → List String)
    (freq : String → List Nat) :
    ∀ (order : List String), order.Nodup → ∀ (s : AsgState) (g : String),
      ((order.foldl (satClaimStep cap req freq) s).counts g) ≤
        s.counts g + (if g ∈ order then 1 else 0) := by
  intro order
  induction order with
  | nil => intro _ s g; simp
  | cons f fs ih =>
      intro hnodup s g
      simp only [List.foldl_cons]
      by_cases hg : g = f
      · subst hg
        have hg2 : g ∉ fs := by
          simpa using (List.nodup_cons.mp hnodup).1
        calc ((fs.foldl (satClaimStep cap req freq)
                (satClaimStep cap req freq s g)).counts g)
            ≤ (satClaimStep cap req freq s g).counts g +
                (if g ∈ fs then 1 else 0) := ih (List.nodup_cons.mp hnodup).2 _ g
          _ = (satClaimStep cap req freq s g).counts g := by simp [hg2]
          _ ≤ s.counts g + 1 := satClaimStep_counts_self cap req freq s g
          _ = s.counts g + (if g ∈ g :: fs then 1 else 0) := by simp
      · calc ((fs.foldl (satClaimStep cap req freq)
                (satClaimStep cap req freq s f)).counts g)
            ≤ (satClaimStep cap req freq s f).counts g +
                (if g ∈ fs then 1 else 0) := ih (List.nodup_cons.mp hnodup).2 _ g
          _ = s.counts g + (if g ∈ fs then 1 else 0) := by
              rw [satClaimStep_counts_other cap req freq s f g hg]
          _ ≤ s.counts g + (if g ∈ f :: fs then 1 else 0) := by
              by_cases hm : g ∈ fs
              · simp [hm, List.mem_cons_of_mem f hm]
              · simp [hm]

lemma satRounds_quota (cap : Nat) (req : Nat → List String)
    (freq : String → List Nat) (fac : List Faculty)
    (shuffle : Nat → List String → List String)
    (hids : (fac.map Faculty.id).Nodup)
    (hsh : ∀ i l, (shuffle i l).Perm l) :
    ∀ (fuel rnd : Nat) (s : AsgState),
      (∀ g, s.counts g ≤ desiredOf fac g) →
      ∀ g, (satRounds cap req freq fac shuffle fuel rnd s).counts g ≤
        desiredOf fac g := by
  intro fuel
  induction fuel with
  | zero => intro rnd s hs g; exact hs g
  | succ fuel ih =>
      intro rnd s hs g
      rw [satRounds]
      by_cases hact : ((fac.map Faculty.id).filter
          (fun f => decide (s.counts f < desiredOf fac f))).isEmpty
      · simp only [hact, if_true]
        exact hs g
      · simp only [hact, if_false]
        apply ih
        intro g'
        have hperm := hsh rnd ((fac.map Faculty.id).filter
          (fun f => decide (s.counts f < desiredOf fac f)))
        have hnd : (shuffle rnd ((fac.map Faculty.id).filter
            (fun f => decide (s.counts f < desiredOf fac f)))).Nodup :=
          hperm.symm.nodup (hids.filter _)
        have hle := satFold_counts_le cap req freq _ hnd s g'
        by_cases hm : g' ∈ shuffle rnd ((fac.map Faculty.id).filter
            (fun f => decide (s.counts f < desiredOf fac f)))
        · have hlt : s.counts g' < desiredOf fac g' := by
            have := (List.mem_filter.mp (hperm.mem_iff.mp hm)).2
            simpa using this
          simpa [hm] using Nat.le_trans hle (by simp [hm]; omega)
        · have : s.counts g' + (if g' ∈ shuffle rnd ((fac.map Faculty.id).filter
              (fun f => decide (s.counts f < desiredOf fac f))) then 1 else 0) =
                s.counts g' := by simp [hm]
          rw [this] at hle
          exact Nat.le_trans hle (hs g')

lemma satRounds_capBound (cap : Nat) (req : Nat → List String)
    (freq : String → List Nat) (fac : List Faculty)
    (shuffle : Nat → List String → List String) :
    ∀ (fuel rnd : Nat) (s : AsgState),
      (∀ n, (s.asg n).length ≤ cap) →
      ∀ n, ((satRounds cap req freq fac shuffle fuel rnd s).asg n).length ≤ cap := by
  intro fuel
  induction fuel with
  | zero => intro rnd s hs; exact hs
  | succ fuel ih =>
      intro rnd s hs
      rw [satRounds]
      by_cases hact : ((fac.map Faculty.id).filter
          (fun f => decide (s.counts f < desiredOf fac f))).isEmpty
      · simp only [hact, if_true]; exact hs
      · simp only [hact, if_false]
        apply ih
        exact foldl_preserve (satClaimStep cap req freq)
          (fun t fid ht => satClaimStep_capBound cap req freq t fid ht) _ s hs

lemma satRounds_validity (cap : Nat) (req : Nat → List String)
    (freq : String → List Nat) (fac : List Faculty)
    (shuffle : Nat → List String → List String)
    (hfreq : ∀ g n, n ∈ freq g → n ∈ reqDatesOf fac g) :
    ∀ (fuel rnd : Nat) (s : AsgState),
      (∀ n f, f ∈ s.asg n → n ∈ reqDatesOf fac f) →
      ∀ n f, f ∈ (satRounds cap req freq fac shuffle fuel rnd s).asg n →
        n ∈ reqDatesOf fac f := by
  intro fuel
  induction fuel with
  | zero => intro rnd s hs; exact hs
  | succ fuel ih =>
      intro rnd s hs
      rw [satRounds]
      by_cases hact : ((fac.map Faculty.id).filter
          (fun f => decide (s.counts f < desiredOf fac f))).isEmpty
      · simp only [hact, if_true]; exact hs
      · simp only [hact, if_false]
        apply ih
        exact foldl_preserve (satClaimStep cap req freq)
          (fun t fid ht => satClaimStep_validity cap req freq fac t fid hfreq ht) _ s hs

lemma synced_satClaimStep (cap : Nat) (req : Nat → List String)
    (freq : String → List Nat) (s : AsgState) (fid : String)
    (h : Synced s) : Synced (satClaimStep cap req freq s fid) := by
  rcases satClaimStep_cases cap req freq s fid with he | ⟨best, _, _, he⟩
  · rw [he]; exact h
  · rw [he]; exact synced_assignOne best fid s h

lemma synced_satRounds (cap : Nat) (req : Nat → List String)
    (freq : String → List Nat) (fac : List Faculty)
    (shuffle : Nat → List String → List String) :
    ∀ (fuel rnd : Nat) (s : AsgState), Synced s →
      Synced (satRounds cap req freq fac shuffle fuel rnd s) := by
  intro fuel
  induction fuel with
  | zero => intro rnd s hs; exact hs
  | succ fuel ih =>
      intro rnd s hs
      rw [satRounds]
      by_cases hact : ((fac.map Faculty.id).filter
          (fun f => decide (s.counts f < desiredOf fac f))).isEmpty
      · simp only [hact, if_true]; exact hs
      · simp only [hact, if_false]
        apply ih
        exact foldl_preserve (satClaimStep cap req freq)
          (fun t fid ht => synced_satClaimStep cap req freq t fid ht) _ s hs

/-! ## The night universe -/

lemma generateNights_pairwise (s e : Nat) :
    List.Pairwise (fun a b => a < b) (generateNights s e) := by
  unfold generateNights
  rw [List.pairwise_map]
  exact (List.pairwise_lt_range _).imp (fun h => by omega)

lemma generateNights_nodup (s e : Nat) : (generateNights s e).Nodup :=
  (generateNights_pairwise s e).imp Nat.ne_of_lt

lemma generateNights_eq_nil (s e : Nat) (h : e < s) : generateNights s e = [] := by
  unfold generateNights
  have : e + 1 - s = 0 := by omega
  rw [this]
  rfl

/-! ## Sortedness and stability of the night ranking -/

lemma pairwise_insertByLe_key (key : Nat → Nat) (a : Nat) :
    ∀ (m : List Nat), List.Pairwise (KeyOrd key) m → (∀ b ∈ m, a < b) →
      List.Pairwise (KeyOrd key)
        (insertByLe (fun x y => decide (key x ≤ key y)) a m) := by
  intro m
  induction m with
  | nil => intro _ _; simp [insertByLe, List.pairwise_singleton]
  | cons b bs ih =>
      intro hm ha
      simp only [insertByLe]
      by_cases h : key a ≤ key b
      · simp only [decide_eq_true_eq, h, decide_True, if_true]
        constructor
        · intro x hx
          rcases List.mem_cons.mp hx with he | hxm
          · subst he
            exact ⟨h, fun _ => ha x (List.mem_cons_self x bs)⟩
          · have hbx := List.rel_of_pairwise_cons hm hxm
            refine ⟨Nat.le_trans h hbx.1, fun he => ha x (List.mem_cons_of_mem b hxm)⟩
        · exact hm
      · simp only [decide_eq_true_eq, h, decide_False, Bool.false_eq_true, if_false]
        have hlt : key b < key a := Nat.lt_of_not_le h
        constructor
        · intro x hx
          have hx2 := (insertByLe_perm (fun x y => decide (key x ≤ key y)) a bs).mem_iff.mp hx
          rcases List.mem_cons.mp hx2 with he | hxm
          · subst he
            exact ⟨Nat.le_of_lt hlt, fun he => absurd he (Nat.ne_of_lt hlt)⟩
          · exact List.rel_of_pairwise_cons hm hxm
        · exact ih (List.Pairwise.of_cons hm)
            (fun x hx => ha x (List.mem_cons_of_mem b hx))

lemma pairwise_sortByLe_key (key : Nat → Nat) :
    ∀ (l : List Nat), List.Pairwise (fun a b => a < b) l →
      List.Pairwise (KeyOrd key)
        (sortByLe (fun x y => decide (key x ≤ key y)) l) := by
  intro l
  induction l with
  | nil => intro _; simp [sortByLe]
  | cons a as ih =>
      intro h
      simp only [sortByLe]
      apply pairwise_insertByLe_key key a _ (ih (List.Pairwise.of_cons h))
      intro b hb
      exact List.rel_of_pairwise_cons h
        ((sortByLe_perm (fun x y => decide (key x ≤ key y)) as).mem_iff.mp hb)

/-! ## Claim theorems -/

/-- C1, counterexample: the claim fails for the balanced strategy.  With one
requester of desired-count 0 who requested the only night (headcount 1), the
balanced loop assigns them anyway — `_optimize_balanced` takes the top
scored candidates without skipping those at or above their desired-count —
so the final assigned-count 1 exceeds the desired-count 0. -/
theorem c1_counterexample :
    desiredOf facC1 "a" = 0 ∧
      ((balancedRun [3] 1 facC1).fasg "a").length = 1 := by decide

/-- C1, amended: for every run of the satisfaction strategy (any headcount,
any stored request-set view, any permutation-valued shuffle), every
requester's final assigned-count is at most their desired-count; the
balanced strategy does not skip over-quota candidates and can exceed a
requester's quota. -/
theorem c1_quota_satisfaction (nights : List Nat) (cap : Nat)
    (fac : List Faculty) (freq : String → List Nat)
    (shuffle : Nat → List String → List String)
    (hids : (fac.map Faculty.id).Nodup)
    (hsh : ∀ i l, (shuffle i l).Perm l) :
    ∀ fid, ((satRun nights cap fac freq shuffle).fasg fid).length ≤
      desiredOf fac fid := by
  intro fid
  have he : satRun nights cap fac freq shuffle =
      satRounds cap (requestsIdx nights fac) freq fac shuffle
        ((fac.map Faculty.desired_nights).foldr max 0) 0 initState := rfl
  have hsync := synced_satRounds cap (requestsIdx nights fac) freq fac shuffle
    ((fac.map Faculty.desired_nights).foldr max 0) 0 initState (fun g => rfl)
  have hq := satRounds_quota cap (requestsIdx nights fac) freq fac shuffle
    hids hsh ((fac.map Faculty.desired_nights).foldr max 0) 0 initState
    (fun g => Nat.zero_le _) fid
  rw [he, ← hsync fid]
  exact hq

/-- C1, witness for the amended theorem at a concrete input. -/
theorem c1_witness :
    ((satRun [0] 2 facC2 freqC2 idShuffle).fasg "a").length ≤
      desiredOf facC2 "a" :=
  c1_quota_satisfaction [0] 2 facC2 freqC2 idShuffle (by decide)
    (fun i l => List.Perm.refl l) "a"

/-- C2, counterexample: the claim fails for the satisfaction strategy.  One
requester with desired-count 2 whose only requested night has headcount 2
is assigned to that night in two successive rounds — the claim-step filter
checks only that the night is not full, never whether the requester is
already in its list — so the id appears twice in the same night's list
(the headcount bound itself still holds). -/
theorem c2_counterexample :
    (satRun [0] 2 facC2 freqC2 idShuffle).asg 0 = ["a", "a"] ∧
    ¬ ((satRun [0] 2 facC2 freqC2 idShuffle).asg 0).Nodup ∧
    ((satRun [0] 2 facC2 freqC2 idShuffle).asg 0).length ≤ 2 := by decide

/-- C2, amended: for every run, no night's assignment list exceeds the
headcount under any of the three strategies; under the balanced and
coverage strategies no requester id appears twice in the same night's list;
the satisfaction strategy can list the same requester twice in one night. -/
theorem c2_conflict_freedom (nights : List Nat) (cap : Nat)
    (fac : List Faculty) (freq : String → List Nat)
    (shuffle : Nat → List String → List String)
    (hnights : nights.Nodup) (hids : (fac.map Faculty.id).Nodup) :
    (∀ n, ((balancedRun nights cap fac).asg n).Nodup ∧
      ((balancedRun nights cap fac).asg n).length ≤ cap) ∧
    (∀ n, ((coverageRun nights cap fac).asg n).Nodup ∧
      ((coverageRun nights cap fac).asg n).length ≤ cap) ∧
    (∀ n, ((satRun nights cap fac freq shuffle).asg n).length ≤ cap) := by
  refine ⟨?_, ?_, ?_⟩
  · intro n
    have h := balancedRun_good nights cap fac hnights hids n
    exact ⟨h.1, h.2.1⟩
  · intro n
    have h := coverageRun_good nights cap fac hnights hids n
    exact ⟨h.1, h.2.1⟩
  · have he : satRun nights cap fac freq shuffle =
        satRounds cap (requestsIdx nights fac) freq fac shuffle
          ((fac.map Faculty.desired_nights).foldr max 0) 0 initState := rfl
    rw [he]
    exact satRounds_capBound cap (requestsIdx nights fac) freq fac shuffle
      ((fac.map Faculty.desired_nights).foldr max 0) 0 initState
      (fun n => Nat.zero_le cap)

/-- C2, witness for the amended theorem at a concrete input. -/
theorem c2_witness :
    ((balancedRun [0] 1 facC6).asg 0).Nodup ∧
    ((satRun [0] 1 facC6 (fun _ => []) idShuffle).asg 0).length ≤ 1 :=
  ⟨((c2_conflict_freedom [0] 1 facC6 (fun _ => []) idShuffle (by decide)
      (by decide)).1 0).1,
    (c2_conflict_freedom [0] 1 facC6 (fun _ => []) idShuffle (by decide)
      (by decide)).2.2 0⟩

/-- C3, counterexample: for a requester with desired-count 0 (and no
requests), `_generate_results` reports fulfillment 0, not the claimed 100:
the code computes `(assigned / desired * 100) if desired > 0 else 0`. -/
theorem c3_counterexample :
    (optimizeBalanced [0] 1 facC3).map
      (fun r => r.metrics.faculty_stats.map FacultyStat.fulfillment) =
        some [0] ∧ (0 : Rat) ≠ 100 := by
  constructor
  · rfl
  · norm_num

/-- C3, amended: in the per-requester statistics, a requester with
desired-count 0 has fulfillment reported as 0; otherwise fulfillment equals
assigned divided by desired times 100. -/
theorem c3_fulfillment (nights : List Nat) (cap : Nat) (fac : List Faculty)
    (st : AsgState) (h : nights ≠ []) :
    ∃ r, generateResults nights cap fac st = some r ∧
      ∀ stat ∈ r.metrics.faculty_stats,
        (stat.desired = 0 → stat.fulfillment = 0) ∧
        (0 < stat.desired →
          stat.fulfillment = (stat.assigned : Rat) / (stat.desired : Rat) * 100) := by
  simp only [generateResults]
  rw [if_neg (fun hl => h (List.length_eq_zero.mp hl))]
  refine ⟨_, rfl, ?_⟩
  intro stat hstat
  have hstat2 : stat ∈ fac.map (mkStat st) := hstat
  obtain ⟨f, hf, he⟩ := List.mem_map.mp hstat2
  subst he
  constructor
  · intro h0
    have h0' : f.desired_nights = 0 := h0
    simp [mkStat, fulfillmentOf, h0']
  · intro hd
    have hd' : 0 < f.desired_nights := hd
    simp [mkStat, fulfillmentOf, hd']

/-- C3, witness for the amended theorem at a concrete input. -/
theorem c3_witness :
    ∃ r, generateResults [0] 1 facC3 initState = some r ∧
      ∀ stat ∈ r.metrics.faculty_stats,
        (stat.desired = 0 → stat.fulfillment = 0) ∧
        (0 < stat.desired →
          stat.fulfillment = (stat.assigned : Rat) / (stat.desired : Rat) * 100) :=
  c3_fulfillment [0] 1 facC3 initState (by decide)

/-- C4, counterexample: the priority-bonus spread is 20, not less than 10,
and a one-tier priority difference overturns a deficit difference of 1:
a candidate with deficit 2 at priority 3 scores 30, while a candidate with
deficit 1 at priority 1 scores 40. -/
theorem c4_counterexample :
    priorityBonus 1 - priorityBonus 3 = 20 ∧
    ¬ (priorityBonus 1 - priorityBonus 3 < 10) ∧
    needScore 2 0 3 < needScore 1 0 1 := by decide

/-- C4, amended: the need score equals
`(desired - assigned) * 10 + priority_bonus` with
`priority_bonus = (4 - priority) * 10`; the bonus is strictly greater for
higher-priority (numerically smaller) tiers, and the spread between the
largest and smallest tier bonus is 20, so a two-tier priority difference
can overturn an ordering produced by a deficit difference of 1. -/
theorem c4_need_score :
    (∀ d a p, needScore d a p =
        ((d : Int) - (a : Int)) * 10 + priorityBonus p) ∧
    (∀ p q : Nat, p < q → priorityBonus q < priorityBonus p) ∧
    priorityBonus 1 - priorityBonus 3 = 20 := by
  refine ⟨fun d a p => rfl, ?_, by decide⟩
  intro p q h
  unfold priorityBonus
  have hc : (p : Int) < (q : Int) := by exact_mod_cast h
  omega

/-- C4, witness for the amended theorem at a concrete input. -/
theorem c4_witness : priorityBonus 2 < priorityBonus 1 :=
  c4_need_score.2.1 1 2 (by decide)

/-- C5, code bug: a requested date outside the configured night universe is
assigned by the satisfaction strategy and appears in the output schedule.
`load_faculty_requests` filters such dates out of the reverse index (the
`if night in self.nights` guard), but `_optimize_satisfaction` reads the
unfiltered `self.faculty_requests`, so requester a, whose only requested
date 5 lies outside the universe `[0, 1]`, is assigned night 5. -/
theorem c5_out_of_universe_assigned :
    (5 : Nat) ∉ generateNights 0 1 ∧
    reqDatesOf facC5 "a" = [5] ∧
    (optimizeSatisfaction (generateNights 0 1) 1 facC5 freqC5 idShuffle).map
      (fun r => r.schedule 5) = some ["a"] := by
  refine ⟨by decide, by decide, ?_⟩
  have e : generateNights 0 1 = [0, 1] := by decide
  rw [e]
  have h : (satRun [0, 1] 1 facC5 freqC5 idShuffle).asg 5 = ["a"] := by decide
  simp [optimizeSatisfaction, generateResults, h]

/-- C6, counterexample: with one night of headcount 2 and a single
requester, one of two required slots is filled; the claimed formula gives
100 × 1 / (1 × 2) = 50, but the code computes
`covered_nights / total_nights * 100 = 0 / 1 * 100 = 0` (and applies no
rounding). -/
theorem c6_counterexample :
    (optimizeBalanced [0] 2 facC6).map (fun r => r.metrics.coverage_rate) =
      some 0 ∧
    (optimizeBalanced [0] 2 facC6).map
      (fun r => r.metrics.total_shifts_filled) = some 1 ∧
    (optimizeBalanced [0] 2 facC6).map (fun r => r.metrics.total_nights) =
      some 1 ∧
    (100 : Rat) * 1 / (1 * 2) = 50 ∧ (0 : Rat) ≠ 50 := by
  refine ⟨?_, by decide, by decide, by norm_num, by norm_num⟩
  have h : (balancedRun [0] 2 facC6).asg 0 = ["a"] := by decide
  simp [optimizeBalanced, generateResults, h]

/-- C6, amended: the coverage rate equals the number of fully covered
nights (assigned-count at least headcount) divided by the night-count,
times 100, as an exact rational with no rounding. -/
theorem c6_coverage_rate (nights : List Nat) (cap : Nat) (fac : List Faculty)
    (st : AsgState) (h : nights ≠ []) :
    ∃ r, generateResults nights cap fac st = some r ∧
      r.metrics.coverage_rate =
        ((nights.filter (fun n => decide (cap ≤ (r.schedule n).length))).length : Rat) /
          (nights.length : Rat) * 100 := by
  simp only [generateResults]
  rw [if_neg (fun hl => h (List.length_eq_zero.mp hl))]
  refine ⟨_, rfl, ?_⟩
  show ((nights.countP (fun n => decide (cap ≤ (st.asg n).length)) : Rat)) /
      (nights.length : Rat) * 100 = _
  rw [List.countP_eq_length_filter]

/-- C6, witness for the amended theorem at a concrete input. -/
theorem c6_witness :
    ∃ r, generateResults [0] 2 facC6 initState = some r ∧
      r.metrics.coverage_rate =
        (([0].filter (fun n => decide (2 ≤ (r.schedule n).length))).length : Rat) /
          (([0] : List Nat).length : Rat) * 100 :=
  c6_coverage_rate [0] 2 facC6 initState (by decide)

/-- C7: for every strategy name other than balanced, coverage and
satisfaction, `optimize_schedule` fails with the unknown-strategy error
naming the offending strategy (the code's
`ValueError(f"Unknown strategy: {strategy}")`, the spec's
`InvalidStrategyError` taxonomy entry); no strategy body runs, so no
assignment state is produced or mutated. -/
theorem c7_invalid_strategy (nights : List Nat) (cap : Nat)
    (fac : List Faculty) (freq : String → List Nat)
    (shuffle : Nat → List String → List String) (strategy : String)
    (h1 : strategy ≠ "balanced") (h2 : strategy ≠ "coverage")
    (h3 : strategy ≠ "satisfaction") :
    optimize_schedule nights cap fac freq shuffle strategy =
      Except.error ("Unknown strategy: " ++ strategy) := by
  simp [optimize_schedule, h1, h2, h3]

/-- C7, witness at the concrete unknown strategy name "greedy". -/
theorem c7_witness :
    optimize_schedule [] 1 [] (fun _ => []) idShuffle "greedy" =
      Except.error ("Unknown strategy: " ++ "greedy") :=
  c7_invalid_strategy [] 1 [] (fun _ => []) idShuffle "greedy"
    (by decide) (by decide) (by decide)

/-- C8: request validity.  Under the unique-id input contract, for every
run of each of the three strategies, every (requester, night) pair in the
assignment map comes from the requester's original requested-dates set
(for the satisfaction strategy, assuming the stored per-requester view
`freq` only contains genuinely requested dates, as built by
`load_faculty_requests`). -/
theorem c8_request_validity (nights : List Nat) (cap : Nat)
    (fac : List Faculty) (freq : String → List Nat)
    (shuffle : Nat → List String → List String)
    (hnights : nights.Nodup) (hids : (fac.map Faculty.id).Nodup)
    (hfreq : ∀ g n, n ∈ freq g → n ∈ reqDatesOf fac g) :
    (∀ n f, f ∈ (balancedRun nights cap fac).asg n → n ∈ reqDatesOf fac f) ∧
    (∀ n f, f ∈ (coverageRun nights cap fac).asg n → n ∈ reqDatesOf fac f) ∧
    (∀ n f, f ∈ (satRun nights cap fac freq shuffle).asg n →
      n ∈ reqDatesOf fac f) := by
  refine ⟨?_, ?_, ?_⟩
  · intro n f hf
    exact mem_requestsIdx nights fac n f hids
      ((balancedRun_good nights cap fac hnights hids n).2.2 f hf)
  · intro n f hf
    exact mem_requestsIdx nights fac n f hids
      ((coverageRun_good nights cap fac hnights hids n).2.2 f hf)
  · have he : satRun nights cap fac freq shuffle =
        satRounds cap (requestsIdx nights fac) freq fac shuffle
          ((fac.map Faculty.desired_nights).foldr max 0) 0 initState := rfl
    rw [he]
    exact satRounds_validity cap (requestsIdx nights fac) freq fac shuffle
      hfreq ((fac.map Faculty.desired_nights).foldr max 0) 0 initState
      (fun n f hf => absurd hf (List.not_mem_nil f))

/-- C8, witness at a concrete input. -/
theorem c8_witness : 0 ∈ reqDatesOf facC6 "a" :=
  (c8_request_validity [0] 1 facC6 (reqDatesOf facC6) idShuffle (by decide)
    (by decide) (fun g n h => h)).1 0 "a" (by decide)

/-- C9, counterexample: the claim fails for the satisfaction strategy.  In
a run where requester f wants only the contested night 1 (two requesters)
and requester g also holds the uncontested night 2 (one requester), the
chronological sequence of nights the strategy assigns is [1, 2] —
requester-counts [2, 1], which is not ascending. -/
theorem c9_counterexample :
    (satRun [1, 2] 1 facC9 freqC9 idShuffle).trace = [1, 2] ∧
    (requestsIdx [1, 2] facC9 1).length = 2 ∧
    (requestsIdx [1, 2] facC9 2).length = 1 ∧
    ¬ List.Pairwise
        (fun a b => (requestsIdx [1, 2] facC9 a).length ≤
          (requestsIdx [1, 2] facC9 b).length)
        ((satRun [1, 2] 1 facC9 freqC9 idShuffle).trace) := by decide

/-- C9, amended: the night sequence processed by the balanced and coverage
strategies (`nightsByDifficulty`, which both fold over) is sorted ascending
by requester-count, and any two nights with equal counts appear in
canonical calendar-date order, for every strictly calendar-ordered night
universe; the satisfaction strategy does not process nights in this
order. -/
theorem c9_night_order (nights : List Nat) (req : Nat → List String)
    (h : List.Pairwise (fun a b => a < b) nights) :
    List.Pairwise (KeyOrd (fun n => (req n).length))
      (nightsByDifficulty req nights) :=
  pairwise_sortByLe_key (fun n => (req n).length) nights h

/-- C9, witness at a concrete input. -/
theorem c9_witness :
    List.Pairwise (KeyOrd (fun n => (requestsIdx [1, 2] facC9 n).length))
      (nightsByDifficulty (requestsIdx [1, 2] facC9) [1, 2]) :=
  c9_night_order [1, 2] (requestsIdx [1, 2] facC9) (by decide)

/-- C10: a run whose configured night universe is empty (end date before
start date) reaches the division by the zero night-count in the coverage
rate, modelled by `generateResults` returning `none`; producing a result
structure is total exactly when the universe holds at least one night. -/
theorem c10_empty_universe :
    (∀ s e, e < s → generateNights s e = []) ∧
    (∀ (nights : List Nat) (cap : Nat) (fac : List Faculty) (st : AsgState),
      nights = [] → generateResults nights cap fac st = none) ∧
    (∀ (nights : List Nat) (cap : Nat) (fac : List Faculty) (st : AsgState),
      nights ≠ [] → (generateResults nights cap fac st).isSome = true) := by
  refine ⟨fun s e h => generateNights_eq_nil s e h, ?_, ?_⟩
  · intro nights cap fac st h
    subst h
    rfl
  · intro nights cap fac st h
    simp only [generateResults]
    rw [if_neg (fun hl => h (List.length_eq_zero.mp hl))]
    rfl

/-- C10, witness at concrete inputs: the empty universe from an inverted
range yields no result; a one-night universe yields one. -/
theorem c10_witness :
    generateNights 5 3 = [] ∧
    generateResults (generateNights 5 3) 1 [] initState = none ∧
    (generateResults [0] 1 [] initState).isSome = true :=
  ⟨c10_empty_universe.1 5 3 (by decide),
    c10_empty_universe.2.1 (generateNights 5 3) 1 [] initState (by decide),
    c10_empty_universe.2.2 [0] 1 [] initState (by decide)⟩
